import Mathlib

/-!
Verification of the OracleAI signal-to-confidence-to-position-sizing pipeline.

The JavaScript source is shallowly embedded over `ℚ`.  JavaScript numbers are
modelled as rationals; optional (possibly `undefined`) numeric fields are
modelled as `Option ℚ`.  The JavaScript idiom `x || d` (which substitutes the
default `d` both when `x` is `undefined` and when `x` is `0`, since `0` is
falsy) is modelled by `jsOr`.  Where a JavaScript computation on an
`undefined` field would produce `NaN`, the embedding returns `none`, and
`none` is absorbing through the arithmetic that follows, mirroring `NaN`
propagation.
-/

namespace OracleAI

/-- JavaScript `x || d` on an optional numeric field: both `undefined` and
`0` are falsy, so the default `d` is substituted in either case. -/
def jsOr (x : Option ℚ) (d : ℚ) : ℚ :=
  match x with
  | none => d
  | some v => if v = 0 then d else v

/-! ## SignalAggregationSkill (src/skills/SignalAggregationSkill.js)

A `Signal` carries a `type` tag plus the numeric fields the per-type
normalisation reads; all of them may be absent (`undefined`). -/

structure Signal where
  type : String
  sentiment : Option ℚ
  change24h : Option ℚ
  weight : Option ℚ
deriving DecidableEq, Repr

/-- Embedding of `SignalAggregationSkill.normalizeSignal`.  The JS `switch`
on `signal.type` maps news/social through `(sentiment + 1) / 2`, on-chain
through `0.5 + change24h / 100` clipped into `[0, 1]` according to the sign
of the change, and every other type to `0.5`.  When the field the branch
reads is `undefined` the JS arithmetic yields `NaN`; the embedding returns
`none` in that case (`Option.map` over the absent field). -/
def normalizeSignal (s : Signal) : Option ℚ :=
  if s.type = "news" ∨ s.type = "social" then
    s.sentiment.map (fun v => (v + 1) / 2)
  else if s.type = "onchain" then
    s.change24h.map (fun c =>
      if 0 < c then min (1/2 + c / 100) 1 else max (1/2 + c / 100) 0)
  else
    some (1/2)

/-- Accumulated `totalWeight` of the loop in `calculateWeightedScore`:
the sum of `signal.weight || 1` over the list. -/
def totalWeight (signals : List Signal) : ℚ :=
  (signals.map (fun s => jsOr s.weight 1)).sum

/-- Accumulated `weightedSum` of the loop in `calculateWeightedScore`: the
sum of `normalizeSignal s * (s.weight || 1)`.  If any normalisation is
`none` (JS `NaN`) the whole sum is `none`, mirroring `NaN` absorption
through `+` and `*`. -/
def weightedSum (signals : List Signal) : Option ℚ :=
  match signals with
  | [] => some 0
  | s :: rest => do
      let n ← normalizeSignal s
      let r ← weightedSum rest
      pure (n * jsOr s.weight 1 + r)

/-- Embedding of `SignalAggregationSkill.calculateWeightedScore`:
`0.5` for an empty list, otherwise `weightedSum / totalWeight` when the
total weight is positive and `0.5` otherwise. -/
def calculateWeightedScore (signals : List Signal) : Option ℚ :=
  if signals.isEmpty then some (1/2)
  else if 0 < totalWeight signals then
    (weightedSum signals).map (fun s => s / totalWeight signals)
  else some (1/2)

/-- Well-formedness of a signal per the Signal data model: `sentiment`, when
present, lies in `[-1, 1]`; `weight`, when present, is positive; and the
fields the type-specific normalisation reads are present (news/social
signals carry a sentiment, on-chain signals carry a 24h change), as every
signal produced by the aggregator's fetchers does. -/
def SignalWF (s : Signal) : Prop :=
  (∀ v ∈ s.sentiment, -1 ≤ v ∧ v ≤ 1) ∧
  (∀ w ∈ s.weight, 0 < w) ∧
  (s.type = "news" ∨ s.type = "social" → s.sentiment.isSome) ∧
  (s.type = "onchain" → s.change24h.isSome)

instance (s : Signal) : Decidable (SignalWF s) := by
  unfold SignalWF; infer_instance

lemma jsOr_weight_pos {s : Signal} (h : SignalWF s) : 0 < jsOr s.weight 1 := by
  obtain ⟨-, hw, -, -⟩ := h
  cases hs : s.weight with
  | none => simp [jsOr]
  | some w =>
      have := hw w (by simp [hs])
      simp only [jsOr]
      split
      · exact one_pos
      · exact this

lemma normalizeSignal_bounds {s : Signal} (h : SignalWF s) :
    ∃ n, normalizeSignal s = some n ∧ 0 ≤ n ∧ n ≤ 1 := by
  obtain ⟨hsent, -, hpres, hchg⟩ := h
  unfold normalizeSignal
  split
  · next htype =>
      obtain ⟨v, hv⟩ := Option.isSome_iff_exists.mp (hpres htype)
      refine ⟨(v + 1) / 2, by simp [hv], ?_, ?_⟩
      · have := (hsent v (by simp [hv])).1; linarith
      · have := (hsent v (by simp [hv])).2; linarith
  · split
    · next hon =>
        obtain ⟨c, hc⟩ := Option.isSome_iff_exists.mp (hchg hon)
        refine ⟨if 0 < c then min (1/2 + c / 100) 1 else max (1/2 + c / 100) 0,
          by simp [hc], ?_, ?_⟩
        · split
          · next hpos =>
              have : (0:ℚ) ≤ 1/2 + c / 100 := by positivity
              exact le_min this (by norm_num)
          · exact le_max_right _ _
        · split
          · exact min_le_right _ _
          · next hneg =>
              push_neg at hneg
              have : 1/2 + c / 100 ≤ 1 := by
                have : c / 100 ≤ 0 := by
                  exact div_nonpos_of_nonpos_of_nonneg hneg (by norm_num)
                linarith
              exact max_le this (by norm_num)
    · exact ⟨1/2, rfl, by norm_num, by norm_num⟩

lemma weightedSum_bounds {signals : List Signal}
    (h : ∀ s ∈ signals, SignalWF s) :
    ∃ S, weightedSum signals = some S ∧ 0 ≤ S ∧ S ≤ totalWeight signals := by
  induction signals with
  | nil => exact ⟨0, rfl, le_refl 0, by simp [totalWeight]⟩
  | cons s rest ih =>
      obtain ⟨S, hS, hS0, hS1⟩ := ih (fun t ht => h t (List.mem_cons_of_mem s ht))
      obtain ⟨n, hn, hn0, hn1⟩ := normalizeSignal_bounds (h s (List.mem_cons_self s rest))
      have hw := jsOr_weight_pos (h s (List.mem_cons_self s rest))
      refine ⟨n * jsOr s.weight 1 + S, ?_, ?_, ?_⟩
      · simp [weightedSum, hn, hS]
      · have : 0 ≤ n * jsOr s.weight 1 := mul_nonneg hn0 hw.le
        linarith
      · have hnw : n * jsOr s.weight 1 ≤ jsOr s.weight 1 := by
          nlinarith
        have : totalWeight (s :: rest) = jsOr s.weight 1 + totalWeight rest := by
          simp [totalWeight]
        linarith

lemma totalWeight_pos {signals : List Signal} (hne : signals ≠ [])
    (h : ∀ s ∈ signals, SignalWF s) : 0 < totalWeight signals := by
  cases signals with
  | nil => exact absurd rfl hne
  | cons s rest =>
      have hw := jsOr_weight_pos (h s (List.mem_cons_self s rest))
      have hrest : 0 ≤ totalWeight rest := by
        have : ∀ x ∈ rest.map (fun s => jsOr s.weight 1), 0 ≤ x := by
          intro x hx
          obtain ⟨t, ht, rfl⟩ := List.mem_map.mp hx
          exact (jsOr_weight_pos (h t (List.mem_cons_of_mem s ht))).le
        exact List.sum_nonneg this
      have : totalWeight (s :: rest) = jsOr s.weight 1 + totalWeight rest := by
        simp [totalWeight]
      linarith

/-- C5.  For every signal list whose members satisfy the Signal data model,
`calculateWeightedScore` returns a value (no `NaN`) in `[0, 1]`, and on the
empty list it returns exactly `0.5`. -/
theorem calculateWeightedScore_in_unit_interval :
    (∀ signals : List Signal, (∀ s ∈ signals, SignalWF s) →
      ∃ q, calculateWeightedScore signals = some q ∧ 0 ≤ q ∧ q ≤ 1) ∧
    calculateWeightedScore [] = some (1/2) := by
  constructor
  · intro signals h
    by_cases hne : signals = []
    · subst hne
      exact ⟨1/2, rfl, by norm_num, by norm_num⟩
    · have htot := totalWeight_pos hne h
      obtain ⟨S, hS, hS0, hS1⟩ := weightedSum_bounds h
      refine ⟨S / totalWeight signals, ?_, ?_, ?_⟩
      · unfold calculateWeightedScore
        rw [if_neg (by simpa [List.isEmpty_iff] using hne), if_pos htot, hS]
        rfl
      · exact div_nonneg hS0 htot.le
      · exact (div_le_one htot).mpr hS1
  · rfl

/-- Witness for C5 at a concrete well-formed signal list. -/
theorem calculateWeightedScore_in_unit_interval_witness :
    (∃ q, calculateWeightedScore
        [⟨"news", some 1, none, some 2⟩,
         ⟨"onchain", none, some 30, some 1⟩] = some q ∧ 0 ≤ q ∧ q ≤ 1) ∧
    calculateWeightedScore [] = some (1/2) :=
  ⟨calculateWeightedScore_in_unit_interval.1 _ (by decide),
   calculateWeightedScore_in_unit_interval.2⟩

/-! ## ConfidenceScoringSkill (src/agents/politics-ai/index.js)

The skill's constructor resolves its configuration (falsy-defaulted fields
`baseWeight || 0.3`, etc.); the embedding takes the resolved values.  The
calibration ledger is a per-market-type map from a 0.1-wide confidence
bucket to sample/correct counters.  JavaScript keys buckets by the number
`Math.floor(c * 10) / 10`; since division by 10 is injective, the embedding
keys buckets by the integer `⌊c * 10⌋`. -/

structure ScoringConfig where
  baseWeight : ℚ
  signalWeight : ℚ
  historyWeight : ℚ
  calibrationEnabled : Bool
  minSamplesForHistory : ℚ
deriving DecidableEq, Repr

/-- Default `ScoringConfig` of the skill's constructor. -/
def defaultScoringConfig : ScoringConfig :=
  ⟨3/10, 4/10, 3/10, true, 10⟩

structure Prediction where
  rawConfidence : Option ℚ
  model : String
  dataQuality : Option ℚ
  marketType : Option String
deriving DecidableEq, Repr

/-- Calibration bucket: `{samples, correct, accuracy}`.  The `accuracy`
field is recomputed as `correct / samples` by `recordOutcome`; a bucket
freshly created inside `recordOutcome` carries a placeholder `accuracy`
that is overwritten before the bucket is ever stored. -/
structure Bucket where
  samples : ℕ
  correct : ℕ
  accuracy : ℚ
deriving DecidableEq, Repr

/-- Per-market-type calibration ledger entry: total sample count plus the
bucket map.  JavaScript stores the buckets in a plain object; the embedding
uses a function map keyed by `⌊c * 10⌋`, which has the same lookup/update
behaviour. -/
structure Cal where
  samples : ℕ
  buckets : ℤ → Option Bucket

/-- The skill's `calibrationData` map, keyed by market type. -/
def CalData : Type := String → Option Cal

/-- The `signals` argument of `calculate`: the aggregate result's signal
list plus the optional market-condition fields read by
`applyMarketAdjustments`.  The argument must be an object (a `null`
`signals` would throw a `TypeError` inside `applyMarketAdjustments` in the
source and is outside this embedding). -/
structure SignalsInput where
  signals : Option (List Signal)
  volatility : Option ℚ
  liquidity : Option ℚ
deriving DecidableEq, Repr

/-- The performance history object: `total`, `winRate`, `recentWinRate`,
`pnl` as read by `calculateHistoryConfidence`. -/
structure Performance where
  total : ℚ
  winRate : Option ℚ
  recentWinRate : Option ℚ
  pnl : ℚ
deriving DecidableEq, Repr

/-- The model-methodology adjustment at the top of
`calculateBaseConfidence`: `rawConfidence || 0.5`, times `1.1` for an
ensemble model and `0.9` for a naive one. -/
def modelAdjusted (p : Prediction) : ℚ :=
  let score := jsOr p.rawConfidence (1/2)
  if p.model = "ensemble" then score * (11/10)
  else if p.model = "naive" then score * (9/10)
  else score

/-- Embedding of `ConfidenceScoringSkill.calculateBaseConfidence`.  The
data-quality factor `0.5 + dataQuality * 0.5` is guarded by the truthiness
test `if (prediction.dataQuality)`, so it is skipped both when the field is
absent and when it equals `0`. -/
def calculateBaseConfidence (p : Prediction) : ℚ :=
  let score := modelAdjusted p
  let score :=
    match p.dataQuality with
    | some q => if q = 0 then score else score * (1/2 + q * (1/2))
    | none => score
  min score (19/20)

/-- Embedding of `ConfidenceScoringSkill.calculateVariance` (population
variance).  Only called on nonempty lists in the source; on `[]` the JS
code would produce `NaN` while this embedding returns `0` (division by
zero), a case no caller reaches. -/
def calculateVariance (values : List ℚ) : ℚ :=
  let mean := values.sum / values.length
  (values.map (fun v => (v - mean) ^ 2)).sum / values.length

/-- Embedding of `ConfidenceScoringSkill.calculateSignalConfidence`:
`0.4 * consensus + 0.3 * diversity + 0.3 * strength` over the signal list,
`0.5` when the list is absent or empty.  `strength` reads
`Math.abs(s.sentiment || 0.5)`, so a `0` sentiment also falls back to
`0.5`. -/
def calculateSignalConfidence (signals : SignalsInput) : ℚ :=
  match signals.signals with
  | none => 1/2
  | some sigs =>
    if sigs.isEmpty then 1/2
    else
      let sentiments := sigs.filterMap Signal.sentiment
      let consensusScore :=
        if 1 < sentiments.length then max 0 (1 - calculateVariance sentiments)
        else (1/2 : ℚ)
      let sourceTypes := (sigs.map Signal.type).dedup.length
      let diversityScore := min ((sourceTypes : ℚ) / 3) 1
      let avgSignalStrength :=
        (sigs.map (fun s => |jsOr s.sentiment (1/2)|)).sum / sigs.length
      consensusScore * (4/10) + diversityScore * (3/10) + avgSignalStrength * (3/10)

/-- Embedding of `ConfidenceScoringSkill.calculateHistoryConfidence`'s
bucket lookup `getCalibrationForConfidence`: the `'default'` ledger's
bucket for `⌊confidence * 10⌋`.  An absent `confidence` makes the JS key
`NaN`, which matches no stored bucket, so the lookup yields `none`. -/
def getCalibrationForConfidence (data : CalData) (confidence : Option ℚ) :
    Option Bucket :=
  match confidence with
  | none => none
  | some c =>
      match data "default" with
      | none => none
      | some cal => cal.buckets ⌊c * 10⌋

/-- Embedding of `ConfidenceScoringSkill.calculateHistoryConfidence`.
Starting from `winRate || 0.5`: blend 60/40 with a truthy
`recentWinRate`; blend 70/30 with the accuracy of the calibration bucket
matching the prediction's raw confidence whenever that bucket exists; and
scale by `0.8` when `pnl` is negative. -/
def calculateHistoryConfidence (cfg : ScoringConfig) (data : CalData)
    (performance : Option Performance) (p : Prediction) : ℚ :=
  match performance with
  | none => 1/2
  | some perf =>
    if perf.total < cfg.minSamplesForHistory then 1/2
    else
      let score := jsOr perf.winRate (1/2)
      let score :=
        match perf.recentWinRate with
        | some r => if r = 0 then score else score * (6/10) + r * (4/10)
        | none => score
      let score :=
        match getCalibrationForConfidence data p.rawConfidence with
        | some b => score * (7/10) + b.accuracy * (3/10)
        | none => score
      if perf.pnl < 0 then score * (8/10) else score

/-- Embedding of `ConfidenceScoringSkill.applyCalibration`: look up the
market type's ledger (`calibrationData.get(marketType) ||
calibrationData.get('default')`), require at least 20 total samples, and
nudge the confidence 30% toward the matching bucket's accuracy when that
bucket has more than 5 samples. -/
def applyCalibration (data : CalData) (confidence : ℚ)
    (marketType : Option String) : ℚ :=
  let cal :=
    match marketType with
    | some t =>
        match data t with
        | some c => some c
        | none => data "default"
    | none => data "default"
  match cal with
  | none => confidence
  | some cal =>
    if cal.samples < 20 then confidence
    else
      match cal.buckets ⌊confidence * 10⌋ with
      | some b =>
          if 5 < b.samples then confidence + (b.accuracy - confidence) * (3/10)
          else confidence
      | none => confidence

/-- Embedding of `ConfidenceScoringSkill.applyMarketAdjustments`: a `0.85`
multiplier for volatility above `0.8`, `0.95` above `0.5` (the volatility
field is truthiness-guarded), and a `0.9` multiplier when liquidity is
present and below `10000` (an absent liquidity fails the `< 10000`
comparison). -/
def applyMarketAdjustments (confidence : ℚ) (signals : SignalsInput) : ℚ :=
  let adjusted := confidence
  let adjusted :=
    match signals.volatility with
    | some v =>
        if v = 0 then adjusted
        else if 8/10 < v then adjusted * (85/100)
        else if 1/2 < v then adjusted * (95/100)
        else adjusted
    | none => adjusted
  match signals.liquidity with
  | some l => if l < 10000 then adjusted * (9/10) else adjusted
  | none => adjusted

/-- Embedding of `ConfidenceScoringSkill.calculate`: the weighted sum of
the base, signal and history components, then the calibration adjustment
(when enabled), the market-condition adjustments, and the final clamp
`Math.min(Math.max(confidence, 0.01), 0.99)`. -/
def calculate (cfg : ScoringConfig) (data : CalData) (p : Prediction)
    (signals : SignalsInput) (performance : Option Performance) : ℚ :=
  let confidence :=
    calculateBaseConfidence p * cfg.baseWeight +
    calculateSignalConfidence signals * cfg.signalWeight +
    calculateHistoryConfidence cfg data performance p * cfg.historyWeight
  let confidence :=
    if cfg.calibrationEnabled then applyCalibration data confidence p.marketType
    else confidence
  let confidence := applyMarketAdjustments confidence signals
  min (max confidence (1/100)) (99/100)

/-- C1.  For every prediction, signal set and performance history (and any
configuration and calibration state), `ConfidenceScoringSkill.calculate`
returns a value in the closed interval `[0.01, 0.99]`: the final clamp
holds for all confidence inputs. -/
theorem calculate_in_clamp_interval (cfg : ScoringConfig) (data : CalData)
    (p : Prediction) (signals : SignalsInput)
    (performance : Option Performance) :
    1/100 ≤ calculate cfg data p signals performance ∧
    calculate cfg data p signals performance ≤ 99/100 := by
  unfold calculate
  exact ⟨le_min (le_max_right _ _) (by norm_num), min_le_right _ _⟩

/-- C6, counterexample.  With `rawConfidence = 0.8` and `dataQuality = 0`
the base component is `0.8`, not the halved `0.8 * (0.5 + 0.5·0) = 0.4`
the claim requires: the truthiness guard `if (prediction.dataQuality)`
skips the dampening factor when `dataQuality = 0`. -/
theorem calculateBaseConfidence_dataQuality_zero_not_halved :
    calculateBaseConfidence ⟨some (8/10), "m", some 0, none⟩ = 8/10 ∧
    (8/10 : ℚ) ≠ (8/10) * (1/2 + 0 * (1/2)) := by
  constructor
  · simp [calculateBaseConfidence, modelAdjusted, jsOr]
    norm_num
  · norm_num

/-- C6, amended.  The base component multiplies by the data-quality factor
`0.5 + 0.5·dataQuality` only when `dataQuality` is present and nonzero
(truthy); `dataQuality = 0` leaves the base score unchanged, exactly as if
the field were absent, and `dataQuality = 1` also leaves it unchanged (the
factor is `1`); the result is then clamped to at most `0.95`. -/
theorem calculateBaseConfidence_dampening :
    (∀ (p : Prediction) (q : ℚ), p.dataQuality = some q → q ≠ 0 →
      calculateBaseConfidence p = min (modelAdjusted p * (1/2 + q * (1/2))) (19/20)) ∧
    (∀ p : Prediction, p.dataQuality = some 0 →
      calculateBaseConfidence p = min (modelAdjusted p) (19/20)) ∧
    (∀ p : Prediction, p.dataQuality = some 0 →
      calculateBaseConfidence p = calculateBaseConfidence { p with dataQuality := none }) ∧
    (∀ p : Prediction, p.dataQuality = some 1 →
      calculateBaseConfidence p = min (modelAdjusted p) (19/20)) := by
  refine ⟨?_, ?_, ?_, ?_⟩
  · intro p q hq hq0
    simp [calculateBaseConfidence, hq, hq0]
  · intro p hq
    simp [calculateBaseConfidence, hq]
  · intro p hq
    simp [calculateBaseConfidence, modelAdjusted, hq]
  · intro p hq
    simp [calculateBaseConfidence, hq]
    norm_num

/-- Witness for the amended C6 at concrete predictions. -/
theorem calculateBaseConfidence_dampening_witness :
    calculateBaseConfidence ⟨some (7/10), "x", some (3/5), none⟩ =
      min (modelAdjusted ⟨some (7/10), "x", some (3/5), none⟩ * (1/2 + (3/5) * (1/2))) (19/20) ∧
    calculateBaseConfidence ⟨some (7/10), "x", some 0, none⟩ =
      min (modelAdjusted ⟨some (7/10), "x", some 0, none⟩) (19/20) :=
  ⟨calculateBaseConfidence_dampening.1 _ (3/5) rfl (by norm_num),
   calculateBaseConfidence_dampening.2.1 _ rfl⟩

/-- Concrete calibration ledger: the `'default'` market type has one total
sample and a single bucket at key `7` with one sample, one correct, and
accuracy `1`. -/
def smallCalData : CalData :=
  fun t =>
    if t = "default" then
      some { samples := 1, buckets := fun k => if k = 7 then some ⟨1, 1, 1⟩ else none }
    else none

/-- C7, counterexample.  With enough performance samples and a calibration
bucket holding only 1 sample (≤ 5), the history component still blends
70/30 against the bucket's accuracy (`0.5·0.7 + 1·0.3 = 0.65`), while the
claim requires the blend to be skipped (which would give `0.5`): the
`> 5`-sample guard exists only in `applyCalibration`, not in
`calculateHistoryConfidence`. -/
theorem calculateHistoryConfidence_blends_small_bucket :
    calculateHistoryConfidence defaultScoringConfig smallCalData
      (some ⟨10, some (1/2), none, 0⟩) ⟨some (7/10), "m", none, none⟩ = 13/20 ∧
    (13/20 : ℚ) ≠ 1/2 := by
  constructor
  · simp [calculateHistoryConfidence, getCalibrationForConfidence, smallCalData,
      defaultScoringConfig, jsOr]
    norm_num [show ((7:ℚ)/10 * 10) = 7 by norm_num]
  · norm_num

/-- C7, amended.  When the performance sample count meets the minimum, the
70/30 blend against the calibration-bucket accuracy matching the
prediction's raw confidence is applied whenever that bucket exists in the
`'default'` ledger, regardless of its sample count — there is no
`> 5`-sample guard in the history component (that guard exists only in the
separate final calibration adjustment). -/
theorem calculateHistoryConfidence_blend_when_bucket_exists
    (cfg : ScoringConfig) (data : CalData) (perf : Performance)
    (p : Prediction) (b : Bucket)
    (htot : ¬ perf.total < cfg.minSamplesForHistory)
    (hrec : perf.recentWinRate = none)
    (hpnl : 0 ≤ perf.pnl)
    (hcal : getCalibrationForConfidence data p.rawConfidence = some b) :
    calculateHistoryConfidence cfg data (some perf) p =
      jsOr perf.winRate (1/2) * (7/10) + b.accuracy * (3/10) := by
  simp only [calculateHistoryConfidence, hrec, hcal, if_neg htot,
    if_neg (not_lt.mpr hpnl)]

/-- Witness for the amended C7: the blend is applied against a bucket with
a single sample. -/
theorem calculateHistoryConfidence_blend_when_bucket_exists_witness :
    calculateHistoryConfidence defaultScoringConfig smallCalData
      (some ⟨12, some (3/5), none, 5⟩) ⟨some (7/10), "m", none, none⟩ =
      jsOr (some (3/5)) (1/2) * (7/10) + (Bucket.mk 1 1 1).accuracy * (3/10) :=
  calculateHistoryConfidence_blend_when_bucket_exists defaultScoringConfig
    smallCalData ⟨12, some (3/5), none, 5⟩ ⟨some (7/10), "m", none, none⟩ ⟨1, 1, 1⟩
    (by norm_num [defaultScoringConfig]) rfl (by norm_num)
    (by simp [getCalibrationForConfidence, smallCalData])

/-! ## recordOutcome: the sole mutator of the calibration ledger -/

/-- The in-place increments of `recordOutcome` on the matching bucket:
`samples++` and `correct++` when the outcome was correct.  The `accuracy`
field is left as-is here; `recordOutcome` recomputes it immediately
afterwards (a bucket created fresh starts from `{samples: 0, correct: 0}`,
modelled with a placeholder accuracy `0` that is always overwritten). -/
def bumpBucket (b : Bucket) (outcome : Bool) : Bucket :=
  ⟨b.samples + 1, b.correct + (if outcome then 1 else 0), b.accuracy⟩

/-- Embedding of the per-market-type part of
`ConfidenceScoringSkill.recordOutcome`: increment the ledger's total sample
count, bump (or create and bump) the matching bucket, then recompute
`accuracy = correct / samples` for every bucket of this market type (the
JS `for (const b in cal.buckets)` loop, which is pointwise per key). -/
def recordOutcomeCal (cal : Cal) (key : ℤ) (outcome : Bool) : Cal :=
  let b1 := bumpBucket ((cal.buckets key).getD ⟨0, 0, 0⟩) outcome
  { samples := cal.samples + 1,
    buckets := fun k =>
      (if k = key then some b1 else cal.buckets k).map
        (fun b => { b with accuracy := (b.correct : ℚ) / (b.samples : ℚ) }) }

/-- Embedding of `ConfidenceScoringSkill.recordOutcome`: create the market
type's ledger entry if absent, then apply `recordOutcomeCal` at the bucket
key `⌊predictedConfidence * 10⌋`. -/
def recordOutcome (data : CalData) (predictedConfidence : ℚ) (outcome : Bool)
    (marketType : String) : CalData :=
  let cal := (data marketType).getD ⟨0, fun _ => none⟩
  fun t =>
    if t = marketType then
      some (recordOutcomeCal cal ⌊predictedConfidence * 10⌋ outcome)
    else data t

/-- Bucket lookup in the ledger, for stating properties of
`recordOutcome`. -/
def bucketAt (data : CalData) (t : String) (k : ℤ) : Option Bucket :=
  match data t with
  | none => none
  | some cal => cal.buckets k

/-- Iterated `recordOutcome(c, true, t)`: `N` correct outcomes recorded for
the same confidence and market type. -/
def recordN (data : CalData) (c : ℚ) (t : String) : ℕ → CalData
  | 0 => data
  | n + 1 => recordOutcome (recordN data c t n) c true t

lemma bucketAt_recordOutcome (data : CalData) (c : ℚ) (outcome : Bool)
    (t : String) :
    bucketAt (recordOutcome data c outcome t) t ⌊c * 10⌋ =
      some ⟨((bucketAt data t ⌊c * 10⌋).getD ⟨0, 0, 0⟩).samples + 1,
            ((bucketAt data t ⌊c * 10⌋).getD ⟨0, 0, 0⟩).correct +
              (if outcome then 1 else 0),
            ((((bucketAt data t ⌊c * 10⌋).getD ⟨0, 0, 0⟩).correct +
              (if outcome then 1 else 0) : ℕ) : ℚ) /
            ((((bucketAt data t ⌊c * 10⌋).getD ⟨0, 0, 0⟩).samples + 1 : ℕ) : ℚ)⟩ := by
  cases h : data t <;>
    simp [bucketAt, recordOutcome, recordOutcomeCal, bumpBucket, h]

lemma bucketAt_recordN (data : CalData) (c : ℚ) (t : String) :
    ∀ n : ℕ, 1 ≤ n →
      bucketAt (recordN data c t n) t ⌊c * 10⌋ =
        some ⟨((bucketAt data t ⌊c * 10⌋).getD ⟨0, 0, 0⟩).samples + n,
              ((bucketAt data t ⌊c * 10⌋).getD ⟨0, 0, 0⟩).correct + n,
              ((((bucketAt data t ⌊c * 10⌋).getD ⟨0, 0, 0⟩).correct + n : ℕ) : ℚ) /
              ((((bucketAt data t ⌊c * 10⌋).getD ⟨0, 0, 0⟩).samples + n : ℕ) : ℚ)⟩ := by
  intro n
  induction n with
  | zero => intro h; exact absurd h (by norm_num)
  | succ n ih =>
      intro _
      by_cases hn : 1 ≤ n
      · have hstep := bucketAt_recordOutcome (recordN data c t n) c true t
        rw [ih hn] at hstep
        simpa [recordN, add_assoc] using hstep
      · have hn0 : n = 0 := by omega
        subst hn0
        have hstep := bucketAt_recordOutcome data c true t
        simpa [recordN] using hstep

/-- C9.  Starting from any ledger whose matching bucket (if present) has
`correct ≤ samples`, after `recordOutcome(c, true, t)` is called `N ≥ 1`
times the bucket's accuracy equals `correct / samples` with
`correct ≤ samples`, never exceeds `1`, is nondecreasing in `N`, and
trends toward `1` as `N` grows (for every `ε > 0` some later `M` brings it
within `ε` of `1`). -/
theorem recordOutcome_accuracy_trend (data : CalData) (c : ℚ) (t : String)
    (hwf : ∀ b, bucketAt data t ⌊c * 10⌋ = some b → b.correct ≤ b.samples) :
    ∀ N : ℕ, 1 ≤ N →
      ∃ b, bucketAt (recordN data c t N) t ⌊c * 10⌋ = some b ∧
        b.accuracy = (b.correct : ℚ) / (b.samples : ℚ) ∧
        b.correct ≤ b.samples ∧
        b.accuracy ≤ 1 ∧
        (∀ b', bucketAt (recordN data c t (N + 1)) t ⌊c * 10⌋ = some b' →
          b.accuracy ≤ b'.accuracy) ∧
        (∀ ε : ℚ, 0 < ε → ∃ M b'', N ≤ M ∧
          bucketAt (recordN data c t M) t ⌊c * 10⌋ = some b'' ∧
          1 - ε < b''.accuracy) := by
  intro N hN
  set s0 : ℕ := ((bucketAt data t ⌊c * 10⌋).getD ⟨0, 0, 0⟩).samples with hs0
  set c0 : ℕ := ((bucketAt data t ⌊c * 10⌋).getD ⟨0, 0, 0⟩).correct with hc0
  have hcs : c0 ≤ s0 := by
    cases hb : bucketAt data t ⌊c * 10⌋ with
    | none => simp [hs0, hc0, hb]
    | some b => simpa [hs0, hc0, hb] using hwf b hb
  refine ⟨_, bucketAt_recordN data c t N hN, rfl, by simpa using hcs, ?_, ?_, ?_⟩
  · apply div_le_one_of_le
    · exact_mod_cast Nat.add_le_add_right hcs N
    · positivity
  · intro b' hb'
    rw [bucketAt_recordN data c t (N + 1) (by omega)] at hb'
    obtain rfl : b' = _ := (Option.some_inj.mp hb').symm
    show ((c0 + N : ℕ) : ℚ) / ((s0 + N : ℕ) : ℚ) ≤
      ((c0 + (N + 1) : ℕ) : ℚ) / ((s0 + (N + 1) : ℕ) : ℚ)
    have h1 : (0:ℚ) < ((s0 + N : ℕ) : ℚ) := by positivity
    have h2 : (0:ℚ) < ((s0 + (N + 1) : ℕ) : ℚ) := by positivity
    rw [div_le_div_iff h1 h2]
    push_cast
    have : (c0 : ℚ) ≤ (s0 : ℚ) := by exact_mod_cast hcs
    nlinarith
  · intro ε hε
    set M : ℕ := max N (⌈(s0 : ℚ) / ε⌉₊ + 1) with hM
    have hNM : N ≤ M := le_max_left _ _
    have hM1 : 1 ≤ M := le_trans hN hNM
    refine ⟨M, _, hNM, bucketAt_recordN data c t M hM1, ?_⟩
    show 1 - ε < ((c0 + M : ℕ) : ℚ) / ((s0 + M : ℕ) : ℚ)
    have hMpos : (0:ℚ) < (M : ℚ) := by exact_mod_cast hM1
    have hden : (0:ℚ) < ((s0 + M : ℕ) : ℚ) := by positivity
    have hceil : (s0 : ℚ) / ε ≤ (⌈(s0 : ℚ) / ε⌉₊ : ℚ) := Nat.le_ceil _
    have hMge : ((⌈(s0 : ℚ) / ε⌉₊ + 1 : ℕ) : ℚ) ≤ (M : ℚ) := by
      exact_mod_cast le_max_right N (⌈(s0 : ℚ) / ε⌉₊ + 1)
    have hs0M : (s0 : ℚ) < ε * M := by
      have h1 : (s0 : ℚ) / ε < (M : ℚ) := by
        have : ((⌈(s0 : ℚ) / ε⌉₊ : ℕ) : ℚ) + 1 ≤ (M : ℚ) := by push_cast at hMge ⊢; linarith
        linarith
      calc (s0 : ℚ) = (s0 : ℚ) / ε * ε := by field_simp
        _ < (M : ℚ) * ε := by exact mul_lt_mul_of_pos_right h1 hε
        _ = ε * M := by ring
    have key : (1 - ε) * ((s0 + M : ℕ) : ℚ) < ((c0 + M : ℕ) : ℚ) := by
      have h1 : (0:ℚ) ≤ (s0 : ℚ) := by positivity
      have h2 : (0:ℚ) ≤ (c0 : ℚ) := by positivity
      have h3 : 0 ≤ ε * (s0 : ℚ) := mul_nonneg hε.le h1
      push_cast
      nlinarith
    exact (lt_div_iff hden).mpr key

/-- Calibration ledger with no entries at all. -/
def emptyCalData : CalData := fun _ => none

/-- Witness for C9: one correct outcome recorded into an empty ledger. -/
theorem recordOutcome_accuracy_trend_witness :
    ∃ b, bucketAt (recordN emptyCalData (7/10) "default" 1) "default"
        ⌊(7/10 : ℚ) * 10⌋ = some b ∧
      b.accuracy = (b.correct : ℚ) / (b.samples : ℚ) ∧
      b.correct ≤ b.samples ∧
      b.accuracy ≤ 1 ∧
      (∀ b', bucketAt (recordN emptyCalData (7/10) "default" (1 + 1)) "default"
          ⌊(7/10 : ℚ) * 10⌋ = some b' → b.accuracy ≤ b'.accuracy) ∧
      (∀ ε : ℚ, 0 < ε → ∃ M b'', 1 ≤ M ∧
        bucketAt (recordN emptyCalData (7/10) "default" M) "default"
          ⌊(7/10 : ℚ) * 10⌋ = some b'' ∧
        1 - ε < b''.accuracy) :=
  recordOutcome_accuracy_trend emptyCalData (7/10) "default"
    (by intro b h; simp [bucketAt, emptyCalData] at h) 1 le_rfl

/-! ## ExecutionSkill (src/agents/politics-ai/index.js)

`calculatePositionSize(prediction)` reads `this.config.bankroll || 1000`,
`prediction.marketPrice || 0.5` and `this.agent?.config?.maxBetSize || 100`
(the agent's own constructor already defaults `maxBetSize` through the same
falsy `|| 100`).  The embedding takes the optional bankroll and maxBetSize
directly.

Division-by-zero note: when the effective market price is `1`, the JS code
computes `b = 0` and then `(b*p - q)/b`, which is `-Infinity` for
`q = 1 - p > 0`; the subsequent `Math.max(0, Math.min(·, 0.5))` clamps it
to `0`, matching this embedding where division by zero yields `0`.  The
single corner `confidence = 1 ∧ marketPrice = 1` produces `NaN` in JS
(`0/0`), is not representable over `ℚ`, and is excluded by hypothesis in
every theorem that touches `marketPrice = 1`. -/

structure ExecPrediction where
  confidence : ℚ
  marketPrice : Option ℚ
deriving DecidableEq, Repr

lemma jsOr_nonneg {x : Option ℚ} {d : ℚ} (hx : ∀ v ∈ x, 0 ≤ v) (hd : 0 ≤ d) :
    0 ≤ jsOr x d := by
  cases h : x with
  | none => simpa [jsOr] using hd
  | some v =>
      have := hx v (by simp [h])
      simp only [jsOr]
      split
      · exact hd
      · exact this

/-- Embedding of `ExecutionSkill.calculatePositionSize`: fractional Kelly
(`kellyFraction = 0.25`) on `b = 1 / (marketPrice || 0.5) - 1`, with the
Kelly fraction clamped into `[0, 0.5]`, sized against
`bankroll || 1000`, and capped by `maxBetSize || 100`. -/
def calculatePositionSize (bankroll : Option ℚ) (maxBetSize : Option ℚ)
    (prediction : ExecPrediction) : ℚ :=
  let kellyFraction : ℚ := 1/4
  let bank := jsOr bankroll 1000
  let p := prediction.confidence
  let q := 1 - p
  let b := 1 / jsOr prediction.marketPrice (1/2) - 1
  let kelly := (b * p - q) / b
  let kelly := max 0 (min kelly (1/2))
  let size := bank * kelly * kellyFraction
  min size (jsOr maxBetSize 100)

lemma calculatePositionSize_nonneg (bankroll maxBetSize : Option ℚ)
    (pred : ExecPrediction) (hb : 0 ≤ jsOr bankroll 1000)
    (hm : 0 ≤ jsOr maxBetSize 100) :
    0 ≤ calculatePositionSize bankroll maxBetSize pred := by
  simp only [calculatePositionSize]
  refine le_min ?_ hm
  exact mul_nonneg (mul_nonneg hb (le_max_left _ _)) (by norm_num)

/-- C10.  In `calculatePositionSize` the default neutral price `0.5` is
substituted not only when `marketPrice` is absent but also when it is
exactly `0` (the falsy `prediction.marketPrice || 0.5`): for
`marketPrice = 0` the function returns precisely the value it returns for
`marketPrice = 0.5`, and (for nonnegative bankroll/cap inputs) that value
is nonnegative; no division by zero occurs, since the default `0.5` is
substituted before `1 / marketPrice` is evaluated. -/
theorem calculatePositionSize_zero_price_defaults (bankroll maxBetSize : Option ℚ)
    (confidence : ℚ)
    (hbank : ∀ v ∈ bankroll, 0 ≤ v) (hmax : ∀ m ∈ maxBetSize, 0 ≤ m) :
    calculatePositionSize bankroll maxBetSize ⟨confidence, some 0⟩ =
      calculatePositionSize bankroll maxBetSize ⟨confidence, some (1/2)⟩ ∧
    0 ≤ calculatePositionSize bankroll maxBetSize ⟨confidence, some 0⟩ := by
  constructor
  · simp [calculatePositionSize, jsOr]
  · exact calculatePositionSize_nonneg bankroll maxBetSize _
      (jsOr_nonneg hbank (by norm_num)) (jsOr_nonneg hmax (by norm_num))

/-- Witness for C10 at a concrete bankroll, cap and confidence. -/
theorem calculatePositionSize_zero_price_defaults_witness :
    calculatePositionSize (some 1000) (some 1000) ⟨7/10, some 0⟩ =
      calculatePositionSize (some 1000) (some 1000) ⟨7/10, some (1/2)⟩ ∧
    0 ≤ calculatePositionSize (some 1000) (some 1000) ⟨7/10, some 0⟩ :=
  calculatePositionSize_zero_price_defaults (some 1000) (some 1000) (7/10)
    (by intro v hv; simp at hv; norm_num [← hv]) (by intro m hm; simp at hm; norm_num [← hm])

/-- C3, counterexample.  At `confidence = 0.7`, `marketPrice = 0.55`,
`bankroll = 1000`, `maxBetSize = 1000` the function returns `250/3 ≈
83.33`, not the claimed `≈ 118.5`: the claim's own Kelly formula
`(b·0.7 − 0.3)/b` with `b = 1/0.55 − 1 = 9/11` evaluates to `1/3`, not the
claimed `0.474`. -/
theorem calculatePositionSize_scenario_value_refuted :
    calculatePositionSize (some 1000) (some 1000) ⟨7/10, some (11/20)⟩ = 250/3 ∧
    ¬ |(250/3 : ℚ) - 237/2| ≤ 1 := by
  constructor
  · norm_num [calculatePositionSize, jsOr, min_def, max_def]
  · intro h
    have := (abs_le.mp h).1
    norm_num at this

/-- C3, amended.  For `confidence = 0.7`, `marketPrice = 0.55`,
`bankroll = 1000`, `maxBetSize = 1000`: Kelly `= (b·0.7 − 0.3)/b` with
`b = 1/0.55 − 1 = 9/11 ≈ 0.818` evaluates to exactly `1/3 ≈ 0.333` (below
the `0.5` cap), and the returned size is `1000 × (1/3) × 0.25 = 250/3 ≈
83.33`, with size `≤ 1000`. -/
theorem calculatePositionSize_scenario :
    calculatePositionSize (some 1000) (some 1000) ⟨7/10, some (11/20)⟩ = 250/3 ∧
    ((1 / (11/20 : ℚ) - 1) * (7/10) - (3/10)) / (1 / (11/20 : ℚ) - 1) = 1/3 ∧
    (250/3 : ℚ) ≤ 1000 := by
  refine ⟨?_, by norm_num, by norm_num⟩
  norm_num [calculatePositionSize, jsOr, min_def, max_def]

/-- C4, counterexample.  At `bankroll = 0` (allowed by the claim's
`bankroll ≥ 0`) the falsy default `this.config.bankroll || 1000`
substitutes `1000`, and the returned size `250/3` exceeds the claimed
bound `min(0 × 0.5 × 0.25, maxBetSize) = 0`. -/
theorem calculatePositionSize_zero_bankroll_refutes_bound :
    calculatePositionSize (some 0) (some 1000) ⟨7/10, some (11/20)⟩ = 250/3 ∧
    ¬ (250/3 : ℚ) ≤ min ((0:ℚ) * (1/2) * (1/4)) 1000 := by
  constructor
  · norm_num [calculatePositionSize, jsOr, min_def, max_def]
  · norm_num [min_def]

/-- C4, amended.  For every input with `marketPrice ∈ (0, 1)`,
`bankroll > 0` and `maxBetSize > 0` (valid per the stated failure
semantics; `bankroll = 0` instead triggers the falsy `|| 1000` default),
the returned size lies in `[0, min(bankroll × 0.5 × kellyFraction,
maxBetSize)]` with `kellyFraction = 0.25`, and is never negative — the
Kelly fraction is clamped into `[0, 0.5]` before sizing. -/
theorem calculatePositionSize_bounds (B M conf mp : ℚ)
    (hB : 0 < B) (hM : 0 < M) (hmp0 : 0 < mp) (hmp1 : mp < 1) :
    0 ≤ calculatePositionSize (some B) (some M) ⟨conf, some mp⟩ ∧
    calculatePositionSize (some B) (some M) ⟨conf, some mp⟩ ≤
      min (B * (1/2) * (1/4)) M := by
  have hmpne : mp ≠ 0 := ne_of_gt hmp0
  have hBne : B ≠ 0 := ne_of_gt hB
  have hMne : M ≠ 0 := ne_of_gt hM
  simp only [calculatePositionSize, jsOr, if_neg hmpne, if_neg hBne, if_neg hMne]
  constructor
  · exact le_min (mul_nonneg (mul_nonneg hB.le (le_max_left _ _)) (by norm_num)) hM.le
  · refine le_min (le_trans (min_le_left _ _) ?_) (min_le_right _ _)
    refine mul_le_mul_of_nonneg_right (mul_le_mul_of_nonneg_left ?_ hB.le) (by norm_num)
    exact max_le (by norm_num) (min_le_right _ _)

/-- Witness for the amended C4 at the concrete scenario input. -/
theorem calculatePositionSize_bounds_witness :
    0 ≤ calculatePositionSize (some 1000) (some 1000) ⟨7/10, some (11/20)⟩ ∧
    calculatePositionSize (some 1000) (some 1000) ⟨7/10, some (11/20)⟩ ≤
      min ((1000:ℚ) * (1/2) * (1/4)) 1000 :=
  calculatePositionSize_bounds 1000 1000 (7/10) (11/20)
    (by norm_num) (by norm_num) (by norm_num) (by norm_num)

/-- C2, counterexample.  `calculatePositionSize` performs no validation:
for `marketPrice = 0` it silently returns `100` — exactly the
default-priced size it returns for `marketPrice = 0.5` — instead of
raising a validation error.  (The source function contains no validation
or throw path at all, which is why the embedding is a total function.) -/
theorem calculatePositionSize_no_validation :
    calculatePositionSize (some 1000) (some 1000) ⟨7/10, some 0⟩ = 100 ∧
    calculatePositionSize (some 1000) (some 1000) ⟨7/10, some (1/2)⟩ = 100 := by
  constructor <;> norm_num [calculatePositionSize, jsOr, min_def, max_def]

/-- C2, amended.  `calculatePositionSize` never raises: `marketPrice = 0`
is falsy and silently replaced by the default price `0.5`, returning the
default-priced size, and `marketPrice = 1` (for `confidence < 1` and a
nonnegative cap) silently returns size `0` — the Kelly quotient's
division by zero is absorbed by the `[0, 0.5]` clamp.  Non-positive
bankrolls are likewise not rejected (`bankroll = 0` is replaced by the
`|| 1000` default). -/
theorem calculatePositionSize_invalid_inputs_silent
    (bankroll maxBetSize : Option ℚ) (conf : ℚ)
    (hconf : conf < 1) (hmax : ∀ m ∈ maxBetSize, 0 ≤ m) :
    calculatePositionSize bankroll maxBetSize ⟨conf, some 0⟩ =
      calculatePositionSize bankroll maxBetSize ⟨conf, some (1/2)⟩ ∧
    calculatePositionSize bankroll maxBetSize ⟨conf, some 1⟩ = 0 := by
  have hm : 0 ≤ jsOr maxBetSize 100 := jsOr_nonneg hmax (by norm_num)
  constructor
  · simp [calculatePositionSize, jsOr]
  · norm_num [calculatePositionSize, jsOr, div_zero, min_def, max_def, hm]
    intro h
    simp only [jsOr] at hm
    linarith

/-- Witness for the amended C2 at a concrete bankroll, cap and
confidence. -/
theorem calculatePositionSize_invalid_inputs_silent_witness :
    calculatePositionSize (some 1000) (some 1000) ⟨7/10, some 0⟩ =
      calculatePositionSize (some 1000) (some 1000) ⟨7/10, some (1/2)⟩ ∧
    calculatePositionSize (some 1000) (some 1000) ⟨7/10, some 1⟩ = 0 :=
  calculatePositionSize_invalid_inputs_silent (some 1000) (some 1000) (7/10)
    (by norm_num) (by intro m hm; simp at hm; norm_num [← hm])

/-! ## SignalAggregationSkill.aggregate: the TTL cache

`aggregate(market, category)` is asynchronous in the source; its only
effects are the cache read/write and the source fetches.  The embedding
makes the inputs explicit: `now` models `Date.now()` (milliseconds, `ℤ`),
and `fetchedSignals` is an oracle for the concatenated signal lists of the
successful source fetches (`Promise.allSettled`, keep-fulfilled).  The
`fetched` flag records whether the call issued source fetches; on a cache
hit the oracle argument is unused and `fetched = false`, which is how the
embedding expresses that a hit short-circuits all source calls.  The
result's `timestamp` field models `new Date().toISOString()` by the
numeric time `now` (the ISO rendering is injective in the time). -/

structure AggResult where
  signals : List Signal
  score : Option ℚ
  timestamp : ℤ
  sourceCount : ℕ
deriving DecidableEq, Repr

structure CacheEntry where
  data : AggResult
  timestamp : ℤ
deriving DecidableEq, Repr

structure AggConfig where
  cacheDuration : ℤ
deriving DecidableEq, Repr

structure AggState where
  cache : String → Option CacheEntry

structure AggOutcome where
  result : AggResult
  state : AggState
  fetched : Bool

/-- The cache key `` `${category}-${market.id}` ``. -/
def cacheKey (category marketId : String) : String :=
  category ++ "-" ++ marketId

/-- The cache-miss path of `aggregate`: build the result from the fetched
signals (`score = calculateWeightedScore`, `sourceCount = signals.length`),
store it under the key with the current timestamp, and report that source
fetches were issued. -/
def aggregateMiss (st : AggState) (now : ℤ) (key : String)
    (fetchedSignals : List Signal) : AggOutcome :=
  let result : AggResult :=
    ⟨fetchedSignals, calculateWeightedScore fetchedSignals, now,
     fetchedSignals.length⟩
  ⟨result, ⟨fun k => if k = key then some ⟨result, now⟩ else st.cache k⟩, true⟩

/-- Embedding of `SignalAggregationSkill.aggregate`: return the cached
result unchanged when an entry exists and is younger than
`cacheDuration` (`Date.now() - cached.timestamp < cacheDuration`),
otherwise fetch and store. -/
def aggregate (cfg : AggConfig) (st : AggState) (now : ℤ)
    (market category : String) (fetchedSignals : List Signal) : AggOutcome :=
  let key := cacheKey category market
  match st.cache key with
  | some cached =>
      if now - cached.timestamp < cfg.cacheDuration then ⟨cached.data, st, false⟩
      else aggregateMiss st now key fetchedSignals
  | none => aggregateMiss st now key fetchedSignals

/-- An aggregation state holding one cache entry, stored at time `0`, for
the politics category and market `m1`. -/
def staleState : AggState :=
  ⟨fun k => if k = cacheKey "politics" "m1" then
      some ⟨⟨[], some (1/2), 0, 0⟩, 0⟩
    else none⟩

/-- C8, counterexample.  With the default TTL (300000 ms) and a cache
entry stored at time `0`: a first call at `t1 = 299999` hits the cache,
and a second call at `t2 = 300000` — only 1 ms after the first, well
within the TTL window of the first call, with no intervening
`clearCache` — finds the entry expired, issues new source fetches, and
returns a different result.  The TTL is measured from the stored entry's
timestamp, which a cache hit does not refresh. -/
theorem aggregate_second_call_within_ttl_refetches :
    ((300000 : ℤ) - 299999 < 300000) ∧
    (aggregate ⟨300000⟩ staleState 299999 "m1" "politics" []).fetched = false ∧
    (aggregate ⟨300000⟩ (aggregate ⟨300000⟩ staleState 299999 "m1" "politics" []).state
      300000 "m1" "politics" []).fetched = true ∧
    (aggregate ⟨300000⟩ (aggregate ⟨300000⟩ staleState 299999 "m1" "politics" []).state
      300000 "m1" "politics" []).result ≠
      (aggregate ⟨300000⟩ staleState 299999 "m1" "politics" []).result := by
  have h1 : aggregate ⟨300000⟩ staleState 299999 "m1" "politics" [] =
      ⟨⟨[], some (1/2), 0, 0⟩, staleState, false⟩ := by
    norm_num [aggregate, staleState]
  have h2 : (aggregate ⟨300000⟩ staleState 300000 "m1" "politics" []).result.timestamp
      = 300000 := by
    norm_num [aggregate, aggregateMiss, staleState]
  refine ⟨by norm_num, by rw [h1], by rw [h1]; norm_num [aggregate, aggregateMiss, staleState], ?_⟩
  rw [h1]
  intro h
  have ht := congrArg AggResult.timestamp h
  rw [h2] at ht
  norm_num at ht

/-- C8, amended.  A second `aggregate` call for the same (market,
category), with no intervening `clearCache`, returns a bit-identical
result, leaves the cache unchanged and issues no source fetches, provided
it occurs within the TTL measured from the stored timestamp of the cache
entry in place after the first call (when the first call was a cache
miss, that timestamp is the first call's time; when the first call was
itself a hit on a pre-existing entry, it is that entry's original storage
time). -/
theorem aggregate_idempotent_within_entry_ttl (cfg : AggConfig)
    (st : AggState) (t1 t2 : ℤ) (market category : String)
    (f1 f2 : List Signal) (e : CacheEntry)
    (he : (aggregate cfg st t1 market category f1).state.cache
      (cacheKey category market) = some e)
    (htt : t2 - e.timestamp < cfg.cacheDuration) :
    aggregate cfg (aggregate cfg st t1 market category f1).state t2
        market category f2 =
      ⟨(aggregate cfg st t1 market category f1).result,
       (aggregate cfg st t1 market category f1).state, false⟩ := by
  rcases hc : st.cache (cacheKey category market) with _ | c
  · have ho1 : aggregate cfg st t1 market category f1 =
        aggregateMiss st t1 (cacheKey category market) f1 := by
      simp [aggregate, hc]
    rw [ho1] at he ⊢
    have hee : e = ⟨⟨f1, calculateWeightedScore f1, t1, f1.length⟩, t1⟩ := by
      simpa [aggregateMiss] using he.symm
    subst hee
    simp only [CacheEntry.timestamp] at htt
    simp [aggregate, aggregateMiss, htt]
  · by_cases hhit : t1 - c.timestamp < cfg.cacheDuration
    · have ho1 : aggregate cfg st t1 market category f1 = ⟨c.data, st, false⟩ := by
        simp [aggregate, hc, hhit]
      rw [ho1] at he ⊢
      simp only at he
      rw [hc] at he
      obtain rfl := Option.some_inj.mp he
      simp [aggregate, hc, htt]
    · have ho1 : aggregate cfg st t1 market category f1 =
          aggregateMiss st t1 (cacheKey category market) f1 := by
        simp [aggregate, hc, hhit]
      rw [ho1] at he ⊢
      have hee : e = ⟨⟨f1, calculateWeightedScore f1, t1, f1.length⟩, t1⟩ := by
        simpa [aggregateMiss] using he.symm
      subst hee
      simp only [CacheEntry.timestamp] at htt
      simp [aggregate, aggregateMiss, htt]

/-- An aggregation state with an empty cache. -/
def emptyAggState : AggState := ⟨fun _ => none⟩

/-- Witness for the amended C8: a first (miss) call at `t = 0` on an empty
cache followed by a second call at `t = 1`. -/
theorem aggregate_idempotent_within_entry_ttl_witness :
    aggregate ⟨300000⟩ (aggregate ⟨300000⟩ emptyAggState 0 "m1" "politics" []).state
        1 "m1" "politics" [⟨"social", some 1, none, some 1⟩] =
      ⟨(aggregate ⟨300000⟩ emptyAggState 0 "m1" "politics" []).result,
       (aggregate ⟨300000⟩ emptyAggState 0 "m1" "politics" []).state, false⟩ :=
  aggregate_idempotent_within_entry_ttl ⟨300000⟩ emptyAggState 0 1 "m1" "politics"
    [] [⟨"social", some 1, none, some 1⟩]
    ⟨⟨[], calculateWeightedScore [], 0, 0⟩, 0⟩
    (by simp [aggregate, aggregateMiss, emptyAggState])
    (by norm_num)

end OracleAI
